import Mathlib

/-!
Verification of the go-fsq fixed size task queue against its specification.

The Go sources are shallowly embedded:
* `task.go`      → `Fsq.task` and its methods (`Clean`, `CallAction`, the setters
                   are folded into functional record updates),
* the ring buffer file → `Fsq.ringBuffer` with `Enqueue` / `Dequeue`,
* `fsq.go`       → `Fsq.FixedSizeQueue` with `Init`, `Start`, `Stop`, `Add`,
                   `isValidId`, `processTask`, `actionWrapper`, `popTask`.

Go pointers to `task` objects are modelled by the task's permanent internal id:
every task object ever created is registered in `tasksById` (fsq.go line 109)
under its internal id, the id is never mutated afterwards, so `tasksById` serves
as the heap and an `Int` id as the pointer.  The ring buffer, the waiting-id
index and the ready pool therefore store `Int` ids.  Go `int` is modelled as
`Int`; Go `%` agrees with `Int.emod` on the nonnegative operands that occur
here.  Go maps are modelled as association lists (`lookupKey` / `eraseKey` /
`updateKey`); the caller-supplied action is an opaque function from the opaque
parameter bundle to an optional error, and a nil Go function/map is `none`.

Concurrency: `go q.actionWrapper(task)` spawns a goroutine whose only mutation
of queue state is the completion bookkeeping (Clean, release to pool, decrement
of `countProcessing`, recursive `processTask`).  Executions of the program are
modelled as interleavings of atomic `Add`/`Start`/`Stop` calls and completion
events; a completion event for task `tid` is enabled exactly while `tid` is in
the Processing state.  `Reachable` is the induced set of reachable queue states.
-/

namespace Fsq

/-! ### Association list helpers (the embedding of Go maps) -/

/-- Lookup in an association list; the embedding of a Go map read `m[k]`. -/
def lookupKey {α β : Type} [DecidableEq α] (k : α) : List (α × β) → Option β
  | [] => none
  | (k2, v) :: rest => if k = k2 then some v else lookupKey k rest

/-- Remove every binding of key `k`; the embedding of Go `delete(m, k)`
(keys are unique in the states the program builds). -/
def eraseKey {α β : Type} [DecidableEq α] (k : α) : List (α × β) → List (α × β)
  | [] => []
  | (k2, v) :: rest => if k2 = k then eraseKey k rest else (k2, v) :: eraseKey k rest

/-- Update the value bound to key `k` in place; the embedding of mutating the
object that a Go pointer refers to, with the list as the heap. -/
def updateKey {α β : Type} [DecidableEq α] (m : List (α × β)) (k : α) (f : β → β) :
    List (α × β) :=
  m.map (fun p => if p.1 = k then (p.1, f p.2) else p)

/-! ### strings.TrimSpace -/

/-- Whitespace as Go `unicode.IsSpace` classifies it for the Latin-1 range
(the range exercised by this program): space, tab, newline, vertical tab,
form feed, carriage return, next line, no-break space. -/
def goIsSpace (c : Char) : Bool :=
  c = ' ' || c = '\t' || c = '\n' || c = '\x0B' || c = '\x0C' || c = '\r' ||
  c = '\u0085' || c = '\u00A0'

/-- The embedding of Go `strings.TrimSpace`: drop leading and trailing
whitespace. -/
def trimSpace (s : String) : String :=
  String.mk (((s.data.dropWhile goIsSpace).reverse.dropWhile goIsSpace).reverse)

/-! ### task.go -/

/-- The opaque parameter bundle `map[string]interface{}` (string keys, opaque
values). -/
abbrev Params := List (String × String)

/-- The opaque error an action may report. -/
abbrev ActionErr := String

/-- The caller-supplied work function `func(params map[string]interface{}) error`;
`none` is a nil error (success). -/
abbrev Action := Params → Option ActionErr

/-- task.go line 6: valid task state values. -/
def ready : String := "r"

/-- task.go line 7. -/
def waiting : String := "w"

/-- task.go line 8. -/
def processing : String := "p"

/-- task.go lines 10-16.  `action`/`params` are `none` when the Go fields are
nil; `id` is the permanent internal id. -/
structure task where
  state : String
  action : Option Action
  params : Option Params
  id : Int
  externalId : String

/-- The Go zero value `task{}` (fsq.go line 106). -/
def taskZero : task :=
  { state := "", action := none, params := none, id := 0, externalId := "" }

/-- task.go lines 19-24: reset state to ready, clear action, params and
external id; the internal id is untouched. -/
def task.Clean (t : task) : task :=
  { t with state := ready, action := none, params := none, externalId := "" }

/-- The errors `task.CallAction` can report: the defensive internal error for a
nil action or nil params, or the action's own failure, distinguishable by
construction. -/
inductive taskError where
  | invalidTaskState
  | actionFailure (e : ActionErr)
deriving DecidableEq

/-- task.go lines 42-48: fail with the invalid-task-state error when action or
params is nil, otherwise invoke the action on the params and return its result
verbatim. -/
def task.CallAction (t : task) : Option taskError :=
  match t.action, t.params with
  | some a, some p => (a p).map taskError.actionFailure
  | some _, none => some taskError.invalidTaskState
  | none, _ => some taskError.invalidTaskState

/-! ### The ring buffer -/

/-- The ring buffer error (`Enqueue` when full); `Add` ignores it. -/
inductive rbError where
  | full
deriving DecidableEq

/-- Ring buffer source lines 5-12.  Slots hold task references: `some id` for a
pointer to the task with that internal id, `none` for a nil slot. -/
structure ringBuffer where
  MaxSize : Int
  CurrentSize : Int
  IsFull : Bool
  items : List (Option Int)
  head : Int
  tail : Int
deriving DecidableEq

/-- Ring buffer source lines 15-29: refuse when `CurrentSize == MaxSize`;
otherwise write the item at `(head + CurrentSize) % MaxSize`, grow the count
and raise the full flag when the count reaches `MaxSize` (the flag is left
unchanged otherwise, exactly as in the source). -/
def ringBuffer.Enqueue (rb : ringBuffer) (t : Int) : ringBuffer × Option rbError :=
  if rb.CurrentSize = rb.MaxSize then
    (rb, some rbError.full)
  else
    let tl := (rb.head + rb.CurrentSize) % rb.MaxSize
    let sz := rb.CurrentSize + 1
    ({ rb with
        tail := tl
        CurrentSize := sz
        items := rb.items.set tl.toNat (some t)
        IsFull := if sz = rb.MaxSize then true else rb.IsFull }, none)

/-- Ring buffer source lines 32-45: `none` when empty; otherwise return the
slot at `head`, clear it, advance `head`, shrink the count and clear the full
flag. -/
def ringBuffer.Dequeue (rb : ringBuffer) : ringBuffer × Option Int :=
  if rb.CurrentSize = 0 then
    (rb, none)
  else
    let t := rb.items.getD rb.head.toNat none
    ({ rb with
        items := rb.items.set rb.head.toNat none
        head := (rb.head + 1) % rb.MaxSize
        CurrentSize := rb.CurrentSize - 1
        IsFull := false }, t)

/-- The ring buffer `Init` builds (fsq.go lines 48-52, and the test helper
`createRingBuffer`): `make([]*task, size)` is a slice of `size` nil slots, the
remaining fields are Go zero values. -/
def mkRingBuffer (size : Int) : ringBuffer :=
  { MaxSize := size
    CurrentSize := 0
    IsFull := false
    items := List.replicate size.toNat none
    head := 0
    tail := 0 }

/-! ### fsq.go -/

/-- The four admission errors `Add` can return (fsq.go builds them with
`errors.New`; they are distinguished here by construction site). -/
inductive AddError where
  | notRunning
  | capacityExceeded
  | invalidId
  | duplicateId
deriving DecidableEq

/-- fsq.go lines 27-37.  `tasksById` doubles as the heap of task objects (see
the module comment); `waitingTasksByExternalId` and `readyTaskPool` store task
references as internal ids. -/
structure FixedSizeQueue where
  Name : String
  items : ringBuffer
  tasksById : List (Int × task)
  waitingTasksByExternalId : List (String × Int)
  readyTaskPool : List Int
  countProcessing : Int
  maxProcessing : Int
  taskCount : Int
  isRunning : Bool

/-- Dereference a task pointer through the heap.  A dangling id yields the zero
task; the program never produces one. -/
def getTask (q : FixedSizeQueue) (tid : Int) : task :=
  (lookupKey tid q.tasksById).getD taskZero

/-- fsq.go lines 43-65: clamp a size below 1 to 1, build the ring buffer, start
with empty maps, an empty pool and zero counters, stopped, and store
`maxProcessCount` unvalidated. -/
def Init (size : Int) (name : String) (maxProcessCount : Int) : FixedSizeQueue :=
  let size := if size ≤ 0 then 1 else size
  { Name := name
    items := mkRingBuffer size
    tasksById := []
    waitingTasksByExternalId := []
    readyTaskPool := []
    countProcessing := 0
    maxProcessing := maxProcessCount
    taskCount := 0
    isRunning := false }

/-- fsq.go lines 68-70. -/
def FixedSizeQueue.Start (q : FixedSizeQueue) : FixedSizeQueue :=
  { q with isRunning := true }

/-- fsq.go lines 73-75. -/
def FixedSizeQueue.Stop (q : FixedSizeQueue) : FixedSizeQueue :=
  { q with isRunning := false }

/-- fsq.go lines 78-80. -/
def FixedSizeQueue.IsRunning (q : FixedSizeQueue) : Bool :=
  q.isRunning

/-- fsq.go lines 123-138: an id whose trim is empty is invalid; an id already
present among the waiting tasks is a duplicate. -/
def FixedSizeQueue.isValidId (q : FixedSizeQueue) (id : String) : Bool × Option AddError :=
  if (trimSpace id).length = 0 then
    (false, some AddError.invalidId)
  else if (lookupKey id q.waitingTasksByExternalId).isSome then
    (false, some AddError.duplicateId)
  else
    (true, none)

/-- fsq.go lines 176-189: pop the last task reference off a stack, `none` when
empty. -/
def popTask (slice : List Int) : List Int × Option Int :=
  match slice.getLast? with
  | none => (slice, none)
  | some t => (slice.dropLast, some t)

/-- fsq.go lines 141-156: refuse while `countProcessing >= maxProcessing`;
otherwise dequeue, and if a task came out remove its external id from the
waiting index, raise the processing count, mark the task Processing and spawn
its action (the spawned goroutine appears in the model as a later completion
event). -/
def FixedSizeQueue.processTask (q : FixedSizeQueue) : FixedSizeQueue :=
  if q.countProcessing ≥ q.maxProcessing then q
  else
    match q.items.Dequeue with
    | (rb, none) => { q with items := rb }
    | (rb, some tid) =>
      { q with
          items := rb
          waitingTasksByExternalId :=
            eraseKey (getTask q tid).externalId q.waitingTasksByExternalId
          countProcessing := q.countProcessing + 1
          tasksById := updateKey q.tasksById tid
            (fun tk => { tk with state := processing }) }

/-- fsq.go lines 159-173, the completion bookkeeping of the goroutine spawned
for task `tid`: the action's result is observed and discarded (only logged),
the task is cleaned, released to the pool, the processing count is lowered and
the next waiting task is attempted. -/
def FixedSizeQueue.actionWrapper (q : FixedSizeQueue) (tid : Int) : FixedSizeQueue :=
  let q1 := { q with tasksById := updateKey q.tasksById tid task.Clean }
  let q2 := { q1 with
      readyTaskPool := q1.readyTaskPool ++ [tid]
      countProcessing := q1.countProcessing - 1 }
  q2.processTask

/-- fsq.go lines 112-119, the tail of `Add` shared by the reuse and the fresh
allocation branch: mark the task waiting, install action, params and external
id (the four setter calls), index it as waiting, enqueue it (the enqueue error
is discarded by the source) and attempt a dispatch. -/
def finishAdd (q : FixedSizeQueue) (tid : Int) (action : Option Action)
    (params : Option Params) (id : String) : FixedSizeQueue × Option AddError :=
  let q1 := { q with
      tasksById := updateKey q.tasksById tid (fun tk =>
        { tk with state := waiting, action := action, params := params,
                  externalId := id })
      waitingTasksByExternalId := (id, tid) :: q.waitingTasksByExternalId }
  let q2 := { q1 with items := (q1.items.Enqueue tid).1 }
  (q2.processTask, none)

/-- fsq.go lines 83-120: refuse when stopped, when the buffer reports full or
when the id is invalid; then reuse a pooled task if any exists, else allocate a
fresh one under the next internal id and register it; finish as in
`finishAdd`. -/
def FixedSizeQueue.Add (q : FixedSizeQueue) (action : Option Action)
    (params : Option Params) (id : String) : FixedSizeQueue × Option AddError :=
  if !q.isRunning then
    (q, some AddError.notRunning)
  else if q.items.IsFull then
    (q, some AddError.capacityExceeded)
  else
    match (q.isValidId id).2 with
    | some e => (q, some e)
    | none =>
      if 0 < q.readyTaskPool.length then
        let pl := popTask q.readyTaskPool
        finishAdd { q with readyTaskPool := pl.1 } (pl.2.getD 0) action params id
      else
        let newId := q.taskCount + 1
        finishAdd
          { q with
              taskCount := newId
              tasksById := (newId, { taskZero with id := newId }) :: q.tasksById }
          newId action params id

/-! ### Reachable queue states -/

/-- Queue states reachable from `Init` by interleaving `Start`/`Stop`/`Add`
calls with completion events of dispatched actions; a completion of task `tid`
is enabled exactly while `tid` is Processing. -/
inductive Reachable : FixedSizeQueue → Prop where
  | init (size : Int) (name : String) (maxProcessCount : Int) :
      Reachable (Init size name maxProcessCount)
  | start {q : FixedSizeQueue} : Reachable q → Reachable q.Start
  | stop {q : FixedSizeQueue} : Reachable q → Reachable q.Stop
  | add {q : FixedSizeQueue} (action : Option Action) (params : Option Params)
      (id : String) : Reachable q → Reachable (q.Add action params id).1
  | complete {q : FixedSizeQueue} (tid : Int) : Reachable q →
      (getTask q tid).state = processing → Reachable (q.actionWrapper tid)

/-- Ring buffer states of capacity `size` reachable from the freshly made
buffer by enqueues and dequeues. -/
inductive RBReach (size : Int) : ringBuffer → Prop where
  | init : RBReach size (mkRingBuffer size)
  | enq {rb : ringBuffer} (t : Int) : RBReach size rb → RBReach size (rb.Enqueue t).1
  | deq {rb : ringBuffer} : RBReach size rb → RBReach size rb.Dequeue.1


/-! ### Association list lemmas -/

theorem lookupKey_cons {α β : Type} [DecidableEq α] (m : List (α × β)) (k j : α) (v : β) :
    lookupKey j ((k, v) :: m) = if j = k then some v else lookupKey j m := by
  rfl

theorem lookupKey_updateKey_self {α β : Type} [DecidableEq α] (m : List (α × β)) (k : α)
    (f : β → β) : lookupKey k (updateKey m k f) = (lookupKey k m).map f := by
  induction m with
  | nil => rfl
  | cons hd tl ih =>
    rcases hd with ⟨k2, v⟩
    show lookupKey k ((if k2 = k then (k2, f v) else (k2, v)) :: updateKey tl k f) = _
    by_cases h1 : k2 = k
    · subst h1
      rw [if_pos rfl]
      simp [lookupKey]
    · rw [if_neg h1]
      have h2 : ¬k = k2 := fun h => h1 h.symm
      simp only [lookupKey, if_neg h2]
      exact ih

theorem lookupKey_updateKey_ne {α β : Type} [DecidableEq α] (m : List (α × β)) (k j : α)
    (f : β → β) (h : j ≠ k) : lookupKey j (updateKey m k f) = lookupKey j m := by
  induction m with
  | nil => rfl
  | cons hd tl ih =>
    rcases hd with ⟨k2, v⟩
    show lookupKey j ((if k2 = k then (k2, f v) else (k2, v)) :: updateKey tl k f) = _
    by_cases h1 : k2 = k
    · subst h1
      rw [if_pos rfl]
      have h2 : ¬j = k2 := h
      simp only [lookupKey, if_neg h2]
      exact ih
    · rw [if_neg h1]
      by_cases h2 : j = k2 <;> simp [lookupKey, h2, ih]

theorem lookupKey_eraseKey_self {α β : Type} [DecidableEq α] (m : List (α × β)) (k : α) :
    lookupKey k (eraseKey k m) = none := by
  induction m with
  | nil => rfl
  | cons hd tl ih =>
    rcases hd with ⟨k2, v⟩
    show lookupKey k (if k2 = k then eraseKey k tl else (k2, v) :: eraseKey k tl) = _
    by_cases h1 : k2 = k
    · rw [if_pos h1]
      exact ih
    · rw [if_neg h1]
      have h2 : ¬k = k2 := fun h => h1 h.symm
      simp only [lookupKey, if_neg h2]
      exact ih

theorem lookupKey_eraseKey_ne {α β : Type} [DecidableEq α] (m : List (α × β)) (k j : α)
    (h : j ≠ k) : lookupKey j (eraseKey k m) = lookupKey j m := by
  induction m with
  | nil => rfl
  | cons hd tl ih =>
    rcases hd with ⟨k2, v⟩
    show lookupKey j (if k2 = k then eraseKey k tl else (k2, v) :: eraseKey k tl) = _
    by_cases h1 : k2 = k
    · rw [if_pos h1]
      have h2 : ¬j = k2 := fun hh => h (hh.trans h1)
      simp only [lookupKey, if_neg h2]
      exact ih
    · rw [if_neg h1]
      by_cases h2 : j = k2 <;> simp [lookupKey, h2, ih]

/-! ### List getD/set lemmas used for the ring buffer slots -/

theorem getD_set_self {α : Type} (l : List α) (i : Nat) (a d : α) (h : i < l.length) :
    (l.set i a).getD i d = a := by
  rw [List.getD_eq_getElem?_getD, List.getElem?_set_self h]
  rfl

theorem getD_set_ne {α : Type} (l : List α) (i j : Nat) (a d : α) (h : i ≠ j) :
    (l.set i a).getD j d = l.getD j d := by
  rw [List.getD_eq_getElem?_getD, List.getElem?_set_ne h, ← List.getD_eq_getElem?_getD]

/-! ### Shape lemmas for the queue operations -/

theorem processTask_of_ge {q : FixedSizeQueue}
    (h : q.countProcessing ≥ q.maxProcessing) : q.processTask = q := by
  unfold FixedSizeQueue.processTask
  rw [if_pos h]

theorem processTask_maxProcessing (q : FixedSizeQueue) :
    q.processTask.maxProcessing = q.maxProcessing := by
  unfold FixedSizeQueue.processTask
  split
  · rfl
  · rcases hd : q.items.Dequeue with ⟨rb, t⟩
    cases t <;> rfl

theorem processTask_isRunning (q : FixedSizeQueue) :
    q.processTask.isRunning = q.isRunning := by
  unfold FixedSizeQueue.processTask
  split
  · rfl
  · rcases hd : q.items.Dequeue with ⟨rb, t⟩
    cases t <;> rfl

theorem processTask_count_le (q : FixedSizeQueue)
    (h : q.countProcessing ≤ q.maxProcessing) :
    q.processTask.countProcessing ≤ q.maxProcessing := by
  unfold FixedSizeQueue.processTask
  split
  · exact h
  · rename_i hg
    rcases hd : q.items.Dequeue with ⟨rb, t⟩
    cases t
    · exact h
    · show q.countProcessing + 1 ≤ q.maxProcessing
      omega

theorem Add_cases (q : FixedSizeQueue) (a : Option Action) (p : Option Params)
    (i : String) :
    (q.Add a p i).1 = q ∨
    ∃ q2 : FixedSizeQueue,
      (q.Add a p i).1 = q2.processTask ∧
      q2.countProcessing = q.countProcessing ∧
      q2.maxProcessing = q.maxProcessing ∧
      q2.isRunning = q.isRunning := by
  unfold FixedSizeQueue.Add finishAdd
  split
  · exact Or.inl rfl
  split
  · exact Or.inl rfl
  split
  · exact Or.inl rfl
  · split
    · exact Or.inr ⟨_, rfl, rfl, rfl, rfl⟩
    · exact Or.inr ⟨_, rfl, rfl, rfl, rfl⟩

theorem Add_maxProcessing (q : FixedSizeQueue) (a : Option Action) (p : Option Params)
    (i : String) : (q.Add a p i).1.maxProcessing = q.maxProcessing := by
  rcases Add_cases q a p i with h | ⟨q2, he, hc, hm, hr⟩
  · rw [h]
  · rw [he, processTask_maxProcessing, hm]

theorem Add_count_le (q : FixedSizeQueue) (a : Option Action) (p : Option Params)
    (i : String) (h : q.countProcessing ≤ q.maxProcessing) :
    (q.Add a p i).1.countProcessing ≤ (q.Add a p i).1.maxProcessing := by
  rw [Add_maxProcessing]
  rcases Add_cases q a p i with he | ⟨q2, he, hc, hm, hr⟩
  · rw [he]
    exact h
  · rw [he, ← hm]
    exact processTask_count_le q2 (by rw [hc, hm]; exact h)

theorem actionWrapper_maxProcessing (q : FixedSizeQueue) (tid : Int) :
    (q.actionWrapper tid).maxProcessing = q.maxProcessing := by
  simp only [FixedSizeQueue.actionWrapper]
  rw [processTask_maxProcessing]

theorem actionWrapper_count_le (q : FixedSizeQueue) (tid : Int)
    (h : q.countProcessing ≤ q.maxProcessing) :
    (q.actionWrapper tid).countProcessing ≤ (q.actionWrapper tid).maxProcessing := by
  rw [actionWrapper_maxProcessing]
  simp only [FixedSizeQueue.actionWrapper]
  exact processTask_count_le _ (by show q.countProcessing - 1 ≤ q.maxProcessing; omega)

theorem Add_success (q : FixedSizeQueue) (a : Option Action) (p : Option Params)
    (i : String) (hrun : q.isRunning = true) (hfull : q.items.IsFull = false)
    (htrim : (trimSpace i).length ≠ 0)
    (hlook : lookupKey i q.waitingTasksByExternalId = none) :
    (q.Add a p i).2 = none := by
  unfold FixedSizeQueue.Add
  rw [hrun, hfull]
  have hv : (q.isValidId i).2 = none := by
    unfold FixedSizeQueue.isValidId
    rw [if_neg htrim, hlook]
    rfl
  simp only [Bool.not_true, Bool.false_eq_true, if_false, hv]
  split <;> rfl

theorem Add_duplicate (q : FixedSizeQueue) (a : Option Action) (p : Option Params)
    (i : String) (hrun : q.isRunning = true) (hfull : q.items.IsFull = false)
    (htrim : (trimSpace i).length ≠ 0)
    (hlook : (lookupKey i q.waitingTasksByExternalId).isSome = true) :
    (q.Add a p i).2 = some AddError.duplicateId := by
  unfold FixedSizeQueue.Add
  rw [hrun, hfull]
  have hv : (q.isValidId i).2 = some AddError.duplicateId := by
    unfold FixedSizeQueue.isValidId
    rw [if_neg htrim, if_pos hlook]
  simp only [Bool.not_true, Bool.false_eq_true, if_false, hv]

/-! ### Invariants of reachable queue states -/

theorem processTask_zero (q : FixedSizeQueue) (hm : q.maxProcessing ≤ 0)
    (hc : q.countProcessing = 0)
    (hnp : ∀ j, (getTask q j).state ≠ processing) :
    q.processTask.countProcessing = 0 ∧
    ∀ j, (getTask q.processTask j).state ≠ processing := by
  rw [processTask_of_ge (by omega)]
  exact ⟨hc, hnp⟩

theorem state_updateKey_waiting (m : List (Int × task)) (tid : Int) (a : Option Action)
    (p : Option Params) (i : String)
    (hnp : ∀ j, ((lookupKey j m).getD taskZero).state ≠ processing) :
    ∀ j, ((lookupKey j (updateKey m tid (fun tk =>
        { tk with state := waiting, action := a, params := p, externalId := i }))).getD
          taskZero).state ≠ processing := by
  intro j
  by_cases hj : j = tid
  · subst hj
    rw [lookupKey_updateKey_self]
    cases hl : lookupKey j m
    · show taskZero.state ≠ processing
      decide
    · show waiting ≠ processing
      decide
  · rw [lookupKey_updateKey_ne _ _ _ _ hj]
    exact hnp j

theorem state_cons_zero (m : List (Int × task)) (newId : Int)
    (hnp : ∀ j, ((lookupKey j m).getD taskZero).state ≠ processing) :
    ∀ j, ((lookupKey j ((newId, { taskZero with id := newId }) :: m)).getD
      taskZero).state ≠ processing := by
  intro j
  rw [lookupKey_cons]
  by_cases hj : j = newId
  · rw [if_pos hj]
    show taskZero.state ≠ processing
    decide
  · rw [if_neg hj]
    exact hnp j

theorem finishAdd_zero (q : FixedSizeQueue) (tid : Int) (a : Option Action)
    (p : Option Params) (i : String) (hm : q.maxProcessing ≤ 0)
    (hc : q.countProcessing = 0)
    (hnp : ∀ j, (getTask q j).state ≠ processing) :
    (finishAdd q tid a p i).1.countProcessing = 0 ∧
    ∀ j, (getTask (finishAdd q tid a p i).1 j).state ≠ processing := by
  unfold finishAdd
  exact processTask_zero _ hm hc (state_updateKey_waiting q.tasksById tid a p i hnp)

theorem Add_zero_preserve (q : FixedSizeQueue) (a : Option Action) (p : Option Params)
    (i : String) (hm : q.maxProcessing ≤ 0) (hc : q.countProcessing = 0)
    (hnp : ∀ j, (getTask q j).state ≠ processing) :
    (q.Add a p i).1.countProcessing = 0 ∧
    ∀ j, (getTask (q.Add a p i).1 j).state ≠ processing := by
  unfold FixedSizeQueue.Add
  split
  · exact ⟨hc, hnp⟩
  split
  · exact ⟨hc, hnp⟩
  split
  · exact ⟨hc, hnp⟩
  · split
    · exact finishAdd_zero _ _ a p i hm hc hnp
    · exact finishAdd_zero _ _ a p i hm hc
        (state_cons_zero q.tasksById (q.taskCount + 1) hnp)

theorem zeroConc_inv {q : FixedSizeQueue} (h : Reachable q) :
    q.maxProcessing ≤ 0 →
      q.countProcessing = 0 ∧ ∀ j, (getTask q j).state ≠ processing := by
  induction h with
  | init s n m =>
    intro hm
    refine ⟨rfl, fun j => ?_⟩
    show taskZero.state ≠ processing
    decide
  | start _ ih =>
    intro hm
    exact ih hm
  | stop _ ih =>
    intro hm
    exact ih hm
  | add a p i _ ih =>
    intro hm
    rw [Add_maxProcessing] at hm
    obtain ⟨hc, hnp⟩ := ih hm
    exact Add_zero_preserve _ a p i hm hc hnp
  | complete tid _ hp ih =>
    intro hm
    rw [actionWrapper_maxProcessing] at hm
    exact absurd hp ((ih hm).2 tid)

theorem count_le_of_reachable {q : FixedSizeQueue} (h : Reachable q) :
    0 ≤ q.maxProcessing → q.countProcessing ≤ q.maxProcessing := by
  induction h with
  | init s n m =>
    intro hm
    exact hm
  | start _ ih =>
    intro hm
    exact ih hm
  | stop _ ih =>
    intro hm
    exact ih hm
  | add a p i _ ih =>
    intro hm
    rw [Add_maxProcessing] at hm
    exact Add_count_le _ a p i (ih hm)
  | complete tid _ hp ih =>
    intro hm
    rw [actionWrapper_maxProcessing] at hm
    exact actionWrapper_count_le _ tid (ih hm)

/-! ### Dispatch characterization -/

theorem Dequeue_some_IsFull {rb rb2 : ringBuffer} {tid : Int}
    (h : rb.Dequeue = (rb2, some tid)) : rb2.IsFull = false := by
  unfold ringBuffer.Dequeue at h
  split at h
  · simp at h
  · injection h with h1 h2
    rw [← h1]

theorem processTask_dispatch {q : FixedSizeQueue} {rb : ringBuffer} {tid : Int}
    (hcnt : q.countProcessing < q.maxProcessing)
    (hdq : q.items.Dequeue = (rb, some tid)) :
    q.processTask = { q with
        items := rb
        waitingTasksByExternalId :=
          eraseKey (getTask q tid).externalId q.waitingTasksByExternalId
        countProcessing := q.countProcessing + 1
        tasksById := updateKey q.tasksById tid
          (fun tk => { tk with state := processing }) } := by
  unfold FixedSizeQueue.processTask
  rw [if_neg (by omega), hdq]

/-! ### Claim theorems -/

/-- C1 (code bug): the claim says the number of distinct task objects ever
allocated (the monotonic `taskCount`) never exceeds the capacity `N`.  The code
violates this: with capacity 1 and max concurrency 1, the first `Add` dispatches
its task immediately (the task leaves the buffer while still executing), so the
second `Add` finds the pool empty and allocates a second task object:
`taskCount = 2 > 1 = MaxSize` in a reachable state. -/
theorem C1_task_allocation_exceeds_capacity :
    Reachable ((((Init 1 "q" 1).Start.Add none none "a").1.Add none none "b").1) ∧
    ((((Init 1 "q" 1).Start.Add none none "a").1.Add none none "b").1).items.MaxSize = 1 ∧
    ((((Init 1 "q" 1).Start.Add none none "a").1.Add none none "b").1).taskCount = 2 := by
  refine ⟨?_, by decide, by decide⟩
  exact Reachable.add none none "b"
    (Reachable.add none none "a" (Reachable.start (Reachable.init 1 "q" 1)))

/-- C2 (counterexample): `Add` checks `isRunning` and the full flag before id
validation, so a whitespace-only id on a stopped queue fails with the
not-running error, and on a full running queue with the capacity error — in
both cases not with the invalid-id error the claim demands for every queue
state. -/
theorem C2_cex :
    ((Init 1 "q" 1).Add none none " ").2 = some AddError.notRunning ∧
    ((Init 1 "q" 1).Add none none " ").2 ≠ some AddError.invalidId ∧
    (((Init 1 "q" 0).Start.Add none none "a").1.Add none none " ").2 =
      some AddError.capacityExceeded ∧
    (((Init 1 "q" 0).Start.Add none none "a").1.Add none none " ").2 ≠
      some AddError.invalidId := by
  decide

/-- C2 (corrected): for every running queue whose buffer is not full, `add`
with an id that trims to the empty string fails with the invalid-id error. -/
theorem C2_invalidId_when_running_not_full (q : FixedSizeQueue) (a : Option Action)
    (p : Option Params) (id : String) (hrun : q.isRunning = true)
    (hfull : q.items.IsFull = false) (htrim : (trimSpace id).length = 0) :
    (q.Add a p id).2 = some AddError.invalidId := by
  unfold FixedSizeQueue.Add
  rw [hrun, hfull]
  have hv : (q.isValidId id).2 = some AddError.invalidId := by
    unfold FixedSizeQueue.isValidId
    rw [if_pos htrim]
  simp only [Bool.not_true, Bool.false_eq_true, if_false, hv]

/-- C2 (witness): the corrected theorem applied to a concrete running,
non-full queue and the whitespace id. -/
theorem C2_witness :
    ((Init 3 "q" 0).Start.Add none none "  ").2 = some AddError.invalidId :=
  C2_invalidId_when_running_not_full _ none none "  " (by decide) (by decide) (by decide)

/-- C3 (counterexample): `Init` stores a negative max concurrency unvalidated,
and the freshly initialized queue is reachable with `countProcessing = 0`
exceeding `maxProcessing = -1`, so the bound as claimed fails for queues
initialized with a negative limit. -/
theorem C3_cex :
    Reachable (Init 1 "q" (-1)) ∧
    (Init 1 "q" (-1)).maxProcessing < (Init 1 "q" (-1)).countProcessing :=
  ⟨Reachable.init 1 "q" (-1), by decide⟩

/-- C3 (corrected): in every reachable state of a queue whose configured max
concurrency is nonnegative, `countProcessing` never exceeds `maxProcessing`,
and `processTask` refuses to dispatch once the count has reached the limit. -/
theorem C3_processing_bounded (q : FixedSizeQueue) (h : Reachable q)
    (hm : 0 ≤ q.maxProcessing) :
    q.countProcessing ≤ q.maxProcessing ∧
    (q.countProcessing ≥ q.maxProcessing → q.processTask = q) :=
  ⟨count_le_of_reachable h hm, fun hge => processTask_of_ge hge⟩

/-- C3 (witness): the corrected theorem applied to the reachable state with one
task processing at limit 1; dispatch refuses there. -/
theorem C3_witness :
    ((Init 1 "q" 1).Start.Add none none "a").1.countProcessing ≤
      ((Init 1 "q" 1).Start.Add none none "a").1.maxProcessing ∧
    ((Init 1 "q" 1).Start.Add none none "a").1.processTask =
      ((Init 1 "q" 1).Start.Add none none "a").1 := by
  have h := C3_processing_bounded _
    (Reachable.add none none "a" (Reachable.start (Reachable.init 1 "q" 1))) (by decide)
  exact ⟨h.1, h.2 (by decide)⟩

/-- C5 (confirmed): on a running queue whose full flag is set, `Add` returns
the capacity error together with the queue state itself — buffer, waiting
index, task index, pool, processing count and id counter all exactly as before
the call. -/
theorem C5_full_rejected_unchanged (q : FixedSizeQueue) (a : Option Action)
    (p : Option Params) (id : String) (hrun : q.isRunning = true)
    (hfull : q.items.IsFull = true) :
    q.Add a p id = (q, some AddError.capacityExceeded) := by
  unfold FixedSizeQueue.Add
  rw [hrun, hfull]
  rfl

/-- C5 (witness): the theorem applied to a concrete full running queue. -/
theorem C5_witness :
    ((Init 1 "q" 0).Start.Add none none "a").1.Add none none "b" =
      (((Init 1 "q" 0).Start.Add none none "a").1, some AddError.capacityExceeded) :=
  C5_full_rejected_unchanged _ none none "b" (by decide) (by decide)

/-- C8 (confirmed): `CallAction` returns the invalid-task-state error whenever
the action or the params bundle is unset, otherwise it returns the action's own
result verbatim (success as `none`, failure wrapped as an action failure, which
is distinguishable from the invalid-task-state error by construction). -/
theorem C8_callAction (t : task) :
    ((t.action = none ∨ t.params = none) →
      t.CallAction = some taskError.invalidTaskState) ∧
    (∀ a p, t.action = some a → t.params = some p →
      t.CallAction = (a p).map taskError.actionFailure) ∧
    (∀ e, taskError.actionFailure e ≠ taskError.invalidTaskState) := by
  refine ⟨?_, ?_, ?_⟩
  · intro h
    unfold task.CallAction
    rcases h with h | h
    · rw [h]
    · rw [h]
      cases ht : t.action <;> rfl
  · intro a p ha hp
    unfold task.CallAction
    rw [ha, hp]
  · intro e h
    exact taskError.noConfusion h

/-- C8 (witness): the theorem applied to the zero task (unset action and
params) and to a task with a concrete action and params. -/
theorem C8_witness :
    taskZero.CallAction = some taskError.invalidTaskState ∧
    (task.mk waiting (some (fun _ => none)) (some []) 1 "x").CallAction =
      (((fun _ => none) : Action) []).map taskError.actionFailure :=
  ⟨(C8_callAction taskZero).1 (Or.inl rfl),
   (C8_callAction _).2.1 (fun _ => none) [] rfl rfl⟩

/-- C9 (confirmed): `Init` clamps a size below 1 to exactly 1 and keeps a size
of at least 1 unchanged, and always returns a stopped queue with empty buffer,
empty indexes, empty pool and zero counters. -/
theorem C9_init_state (size : Int) (name : String) (m : Int) :
    (size < 1 → (Init size name m).items.MaxSize = 1) ∧
    (1 ≤ size → (Init size name m).items.MaxSize = size) ∧
    (Init size name m).isRunning = false ∧
    (Init size name m).items.CurrentSize = 0 ∧
    (Init size name m).items.IsFull = false ∧
    (Init size name m).tasksById = [] ∧
    (Init size name m).waitingTasksByExternalId = [] ∧
    (Init size name m).readyTaskPool = [] ∧
    (Init size name m).countProcessing = 0 ∧
    (Init size name m).taskCount = 0 := by
  refine ⟨fun hs => ?_, fun hs => ?_, rfl, rfl, rfl, rfl, rfl, rfl, rfl, rfl⟩
  · show (if size ≤ 0 then (1 : Int) else size) = 1
    rw [if_pos (by omega)]
  · show (if size ≤ 0 then (1 : Int) else size) = size
    rw [if_neg (by omega)]

/-- C9 (witness): the theorem applied at a clamped and an unclamped size. -/
theorem C9_witness :
    (Init 0 "q" 7).items.MaxSize = 1 ∧ (Init 5 "q" 7).items.MaxSize = 5 ∧
    (Init 0 "q" 7).isRunning = false :=
  ⟨(C9_init_state 0 "q" 7).1 (by decide), (C9_init_state 5 "q" 7).2.1 (by decide),
   (C9_init_state 0 "q" 7).2.2.1⟩

/-- C10 (confirmed): `Init` stores the max process count unvalidated; in every
reachable state of a queue configured with a nonpositive limit nothing is ever
processing, `processTask` dispatches nothing (the count 0 already meets the
guard), and `add` keeps succeeding for fresh valid ids while the buffer is not
full. -/
theorem C10_nonpositive_concurrency :
    (∀ s n m, (Init s n m).maxProcessing = m) ∧
    (∀ q : FixedSizeQueue, Reachable q → q.maxProcessing ≤ 0 →
      q.countProcessing = 0 ∧ q.processTask = q ∧
      (∀ j, (getTask q j).state ≠ processing) ∧
      (∀ a p i, q.isRunning = true → q.items.IsFull = false →
        (trimSpace i).length ≠ 0 → lookupKey i q.waitingTasksByExternalId = none →
        (q.Add a p i).2 = none)) := by
  refine ⟨fun s n m => rfl, fun q h hm => ?_⟩
  obtain ⟨hc, hnp⟩ := zeroConc_inv h hm
  exact ⟨hc, processTask_of_ge (by omega), hnp,
    fun a p i hrun hfull htrim hlook => Add_success q a p i hrun hfull htrim hlook⟩

/-- C10 (witness): the theorem applied to the started queue of capacity 2 and
limit 0, and the unvalidated negative limit read back from `Init`. -/
theorem C10_witness :
    (Init 2 "q" 0).Start.countProcessing = 0 ∧
    (Init 2 "q" 0).Start.processTask = (Init 2 "q" 0).Start ∧
    ((Init 2 "q" 0).Start.Add none none "a").2 = none ∧
    (Init 2 "q" (-3)).maxProcessing = -3 := by
  have h2 := C10_nonpositive_concurrency.2 _
    (Reachable.start (Reachable.init 2 "q" 0)) (by decide)
  exact ⟨h2.1, h2.2.1,
    h2.2.2.2 none none "a" (by decide) (by decide) (by decide) (by decide),
    C10_nonpositive_concurrency.1 2 "q" (-3)⟩

/-- C4 (counterexample): with a full buffer the capacity check runs before the
duplicate check, so while id "a" is Waiting a second `add` with "a" fails with
the capacity error, not the duplicate error; with the queue stopped it fails
with the not-running error.  The claimed equivalence between the duplicate
failure and the id being in the waiting index therefore does not hold in every
queue state. -/
theorem C4_cex :
    (lookupKey "a"
      (((Init 1 "q" 0).Start.Add none none "a").1).waitingTasksByExternalId).isSome =
        true ∧
    (((Init 1 "q" 0).Start.Add none none "a").1.Add none none "a").2 =
      some AddError.capacityExceeded ∧
    (((Init 1 "q" 0).Start.Add none none "a").1.Add none none "a").2 ≠
      some AddError.duplicateId ∧
    (((Init 1 "q" 0).Start.Add none none "a").1.Stop.Add none none "a").2 =
      some AddError.notRunning := by
  decide

/-- C4 (corrected): on a running queue whose buffer is not full, `add` with a
valid (non-whitespace) id fails with the duplicate error exactly when the id is
in the waiting index; and when `processTask` dispatches the task carrying that
id, the id leaves the waiting index and an immediately following `add` with the
same id on the resulting queue succeeds (that queue is still running and its
buffer is not full right after a dequeue). -/
theorem C4_duplicate_iff_waiting (q : FixedSizeQueue) (a : Option Action)
    (p : Option Params) (id : String) (hrun : q.isRunning = true)
    (hfull : q.items.IsFull = false) (htrim : (trimSpace id).length ≠ 0) :
    ((q.Add a p id).2 = some AddError.duplicateId ↔
      (lookupKey id q.waitingTasksByExternalId).isSome = true) ∧
    (∀ rb tid, q.countProcessing < q.maxProcessing →
      q.items.Dequeue = (rb, some tid) → (getTask q tid).externalId = id →
      lookupKey id q.processTask.waitingTasksByExternalId = none ∧
      (q.processTask.Add a p id).2 = none) := by
  constructor
  · constructor
    · intro he
      by_contra hn
      rw [Option.not_isSome_iff_eq_none] at hn
      rw [Add_success q a p id hrun hfull htrim hn] at he
      exact Option.noConfusion he
    · intro hl
      exact Add_duplicate q a p id hrun hfull htrim hl
  · intro rb tid hcnt hdq hid
    have hpt := processTask_dispatch hcnt hdq
    constructor
    · rw [hpt]
      show lookupKey id (eraseKey (getTask q tid).externalId q.waitingTasksByExternalId) =
        none
      rw [hid]
      exact lookupKey_eraseKey_self _ _
    · apply Add_success
      · rw [hpt]
        exact hrun
      · rw [hpt]
        show rb.IsFull = false
        exact Dequeue_some_IsFull hdq
      · exact htrim
      · rw [hpt]
        show lookupKey id (eraseKey (getTask q tid).externalId q.waitingTasksByExternalId) =
          none
        rw [hid]
        exact lookupKey_eraseKey_self _ _

/-- C4 (witness): the corrected theorem applied to a concrete running queue
with id "x" waiting (the duplicate error is returned), and to a concrete queue
about to dispatch the task carrying "x" (after the dispatch the id is gone from
the waiting index and re-adding "x" succeeds). -/
theorem C4_witness :
    ((((Init 3 "q" 0).Start.Add none none "x").1).Add none none "x").2 =
      some AddError.duplicateId ∧
    lookupKey "x" (FixedSizeQueue.mk "q" (ringBuffer.mk 2 1 false [some 1, none] 0 0)
        [(1, task.mk waiting none none 1 "x")] [("x", 1)] [] 0 1 1
        true).processTask.waitingTasksByExternalId = none ∧
    ((FixedSizeQueue.mk "q" (ringBuffer.mk 2 1 false [some 1, none] 0 0)
        [(1, task.mk waiting none none 1 "x")] [("x", 1)] [] 0 1 1
        true).processTask.Add none none "x").2 = none := by
  have h1 := C4_duplicate_iff_waiting (((Init 3 "q" 0).Start.Add none none "x").1)
    none none "x" (by decide) (by decide) (by decide)
  have h2 := C4_duplicate_iff_waiting
    (FixedSizeQueue.mk "q" (ringBuffer.mk 2 1 false [some 1, none] 0 0)
      [(1, task.mk waiting none none 1 "x")] [("x", 1)] [] 0 1 1 true)
    none none "x" rfl rfl (by decide)
  have h3 := h2.2 (ringBuffer.mk 2 0 false [none, none] 1 0) 1 (by decide)
    (by decide) rfl
  exact ⟨h1.1.mpr (by decide), h3.1, h3.2⟩

/-! ### Ring buffer characterization lemmas -/

theorem Enqueue_full (rb : ringBuffer) (t : Int) (h : rb.CurrentSize = rb.MaxSize) :
    rb.Enqueue t = (rb, some rbError.full) := by
  unfold ringBuffer.Enqueue
  rw [if_pos h]

theorem Enqueue_not_full (rb : ringBuffer) (t : Int) (h : rb.CurrentSize ≠ rb.MaxSize) :
    rb.Enqueue t = ({ rb with
      tail := (rb.head + rb.CurrentSize) % rb.MaxSize
      CurrentSize := rb.CurrentSize + 1
      items := rb.items.set ((rb.head + rb.CurrentSize) % rb.MaxSize).toNat (some t)
      IsFull := if rb.CurrentSize + 1 = rb.MaxSize then true else rb.IsFull }, none) := by
  unfold ringBuffer.Enqueue
  rw [if_neg h]

theorem Dequeue_empty (rb : ringBuffer) (h : rb.CurrentSize = 0) :
    rb.Dequeue = (rb, none) := by
  unfold ringBuffer.Dequeue
  rw [if_pos h]

theorem Dequeue_nonempty (rb : ringBuffer) (h : rb.CurrentSize ≠ 0) :
    rb.Dequeue = ({ rb with
      items := rb.items.set rb.head.toNat none
      head := (rb.head + 1) % rb.MaxSize
      CurrentSize := rb.CurrentSize - 1
      IsFull := false }, rb.items.getD rb.head.toNat none) := by
  unfold ringBuffer.Dequeue
  rw [if_neg h]

/-- C7 (confirmed): in every ring buffer state of capacity `N` (at least 1, as
`Init` guarantees) reachable from the fresh buffer by enqueues and dequeues,
the occupancy count stays within `[0, N]`, the full flag is set exactly when
the occupancy equals `N`, and the head and tail indices stay within `[0, N)`. -/
theorem C7_ring_invariant (N : Int) (rb : ringBuffer) (hN : 1 ≤ N)
    (h : RBReach N rb) :
    rb.MaxSize = N ∧ 0 ≤ rb.CurrentSize ∧ rb.CurrentSize ≤ N ∧
    (rb.IsFull = true ↔ rb.CurrentSize = N) ∧
    0 ≤ rb.head ∧ rb.head < N ∧ 0 ≤ rb.tail ∧ rb.tail < N := by
  induction h with
  | init =>
    refine ⟨rfl, ?_, ?_, ?_, ?_, ?_, ?_, ?_⟩
    · show (0 : Int) ≤ 0
      omega
    · show (0 : Int) ≤ N
      omega
    · show false = true ↔ (0 : Int) = N
      constructor
      · intro hh
        exact absurd hh (by simp)
      · intro hh
        exact absurd hh (by omega)
    · show (0 : Int) ≤ 0
      omega
    · show (0 : Int) < N
      omega
    · show (0 : Int) ≤ 0
      omega
    · show (0 : Int) < N
      omega
  | enq t hr ih =>
    obtain ⟨hMS, h0, h1, hF, hh0, hh1, ht0, ht1⟩ := ih
    rename_i rb2
    by_cases hg : rb2.CurrentSize = rb2.MaxSize
    · rw [Enqueue_full rb2 t hg]
      exact ⟨hMS, h0, h1, hF, hh0, hh1, ht0, ht1⟩
    · rw [Enqueue_not_full rb2 t hg]
      refine ⟨hMS, ?_, ?_, ?_, hh0, hh1, ?_, ?_⟩
      · show 0 ≤ rb2.CurrentSize + 1
        omega
      · show rb2.CurrentSize + 1 ≤ N
        omega
      · show (if rb2.CurrentSize + 1 = rb2.MaxSize then true else rb2.IsFull) = true ↔
          rb2.CurrentSize + 1 = N
        by_cases hsz : rb2.CurrentSize + 1 = rb2.MaxSize
        · rw [if_pos hsz]
          constructor
          · intro _
            omega
          · intro _
            rfl
        · rw [if_neg hsz]
          constructor
          · intro hI
            exact absurd (hF.mp hI) (by omega)
          · intro hs
            exact absurd hs (by omega)
      · show 0 ≤ (rb2.head + rb2.CurrentSize) % rb2.MaxSize
        exact Int.emod_nonneg _ (by omega)
      · show (rb2.head + rb2.CurrentSize) % rb2.MaxSize < N
        have := @Int.emod_lt_of_pos (rb2.head + rb2.CurrentSize) rb2.MaxSize (by omega)
        omega
  | deq hr ih =>
    obtain ⟨hMS, h0, h1, hF, hh0, hh1, ht0, ht1⟩ := ih
    rename_i rb2
    by_cases hg : rb2.CurrentSize = 0
    · rw [Dequeue_empty rb2 hg]
      exact ⟨hMS, h0, h1, hF, hh0, hh1, ht0, ht1⟩
    · rw [Dequeue_nonempty rb2 hg]
      refine ⟨hMS, ?_, ?_, ?_, ?_, ?_, ht0, ht1⟩
      · show 0 ≤ rb2.CurrentSize - 1
        omega
      · show rb2.CurrentSize - 1 ≤ N
        omega
      · show false = true ↔ rb2.CurrentSize - 1 = N
        constructor
        · intro hI
          exact absurd hI (by simp)
        · intro hs
          exact absurd hs (by omega)
      · show 0 ≤ (rb2.head + 1) % rb2.MaxSize
        exact Int.emod_nonneg _ (by omega)
      · show (rb2.head + 1) % rb2.MaxSize < N
        have := @Int.emod_lt_of_pos (rb2.head + 1) rb2.MaxSize (by omega)
        omega

/-- C7 (witness): the invariant theorem applied to the concrete reachable
buffer of capacity 2 holding one enqueued item. -/
theorem C7_witness :
    ((mkRingBuffer 2).Enqueue 7).1.MaxSize = 2 ∧
    0 ≤ ((mkRingBuffer 2).Enqueue 7).1.CurrentSize ∧
    ((mkRingBuffer 2).Enqueue 7).1.CurrentSize ≤ 2 ∧
    (((mkRingBuffer 2).Enqueue 7).1.IsFull = true ↔
      ((mkRingBuffer 2).Enqueue 7).1.CurrentSize = 2) ∧
    0 ≤ ((mkRingBuffer 2).Enqueue 7).1.head ∧
    ((mkRingBuffer 2).Enqueue 7).1.head < 2 ∧
    0 ≤ ((mkRingBuffer 2).Enqueue 7).1.tail ∧
    ((mkRingBuffer 2).Enqueue 7).1.tail < 2 :=
  C7_ring_invariant 2 ((mkRingBuffer 2).Enqueue 7).1 (by decide)
    (RBReach.enq 7 RBReach.init)

/-- C6 (confirmed): from any empty, well-formed ring buffer of capacity at
least 3 (indices in range and a backing slot list of the right length, as every
buffer the program builds satisfies), enqueueing `a`, `b`, `c` succeeds and
three dequeues return `a`, then `b`, then `c`, leaving the buffer empty. -/
theorem C6_fifo (rb : ringBuffer) (a b c : Int)
    (hsz : rb.CurrentSize = 0) (hN : 3 ≤ rb.MaxSize)
    (hh0 : 0 ≤ rb.head) (hh1 : rb.head < rb.MaxSize)
    (hlen : rb.items.length = rb.MaxSize.toNat) :
    (rb.Enqueue a).2 = none ∧
    ((rb.Enqueue a).1.Enqueue b).2 = none ∧
    (((rb.Enqueue a).1.Enqueue b).1.Enqueue c).2 = none ∧
    (((rb.Enqueue a).1.Enqueue b).1.Enqueue c).1.Dequeue.2 = some a ∧
    (((rb.Enqueue a).1.Enqueue b).1.Enqueue c).1.Dequeue.1.Dequeue.2 = some b ∧
    (((rb.Enqueue a).1.Enqueue b).1.Enqueue c).1.Dequeue.1.Dequeue.1.Dequeue.2 = some c ∧
    (((rb.Enqueue a).1.Enqueue b).1.Enqueue c).1.Dequeue.1.Dequeue.1.Dequeue.1.CurrentSize
      = 0 := by
  obtain ⟨N, C, F, L, H, T⟩ := rb
  dsimp only at hsz hN hh0 hh1 hlen
  subst hsz
  have hNe0 : N ≠ 0 := by omega
  have hp1a : 0 ≤ (H + 1) % N := Int.emod_nonneg _ hNe0
  have hp1b : (H + 1) % N < N := @Int.emod_lt_of_pos (H + 1) N (by omega)
  have hp2a : 0 ≤ (H + 2) % N := Int.emod_nonneg _ hNe0
  have hp2b : (H + 2) % N < N := @Int.emod_lt_of_pos (H + 2) N (by omega)
  have key : ∀ i j : Int, 0 ≤ i → i < j → j - i < N → (H + i) % N ≠ (H + j) % N := by
    intro i j hi hij hjN he
    have hd : N ∣ (H + j) - (H + i) := Int.ModEq.dvd he
    have hd2 : N ∣ (j - i) := by
      have hh : (H + j) - (H + i) = j - i := by ring
      rwa [hh] at hd
    have hle := Int.le_of_dvd (by omega) hd2
    omega
  have hH : (H + 0) % N = H := by
    rw [Int.add_zero]
    exact Int.emod_eq_of_lt hh0 hh1
  have d01 : H ≠ (H + 1) % N := by
    have hk := key 0 1 (by omega) (by omega) (by omega)
    rwa [hH] at hk
  have d02 : H ≠ (H + 2) % N := by
    have hk := key 0 2 (by omega) (by omega) (by omega)
    rwa [hH] at hk
  have d12 : (H + 1) % N ≠ (H + 2) % N := key 1 2 (by omega) (by omega) (by omega)
  have n01 : H.toNat ≠ ((H + 1) % N).toNat := by omega
  have n02 : H.toNat ≠ ((H + 2) % N).toNat := by omega
  have n12 : ((H + 1) % N).toNat ≠ ((H + 2) % N).toNat := by omega
  have bn0 : H.toNat < L.length := by omega
  have bn1 : ((H + 1) % N).toNat < L.length := by omega
  have bn2 : ((H + 2) % N).toNat < L.length := by omega
  have hp12 : ((H + 1) % N + 1) % N = (H + 2) % N := by
    rw [Int.emod_add_emod]
    have hx : H + 1 + 1 = H + 2 := by ring
    rw [hx]
  have e1 : (ringBuffer.mk N 0 F L H T).Enqueue a =
      (ringBuffer.mk N 1 F (L.set H.toNat (some a)) H H, none) := by
    rw [Enqueue_not_full (ringBuffer.mk N 0 F L H T) a (by show (0 : Int) ≠ N; omega)]
    dsimp only
    rw [hH, if_neg (by omega : ¬(0 : Int) + 1 = N)]
    rfl
  have e2 : (ringBuffer.mk N 1 F (L.set H.toNat (some a)) H H).Enqueue b =
      (ringBuffer.mk N 2 F
        ((L.set H.toNat (some a)).set ((H + 1) % N).toNat (some b)) H ((H + 1) % N),
       none) := by
    rw [Enqueue_not_full (ringBuffer.mk N 1 F (L.set H.toNat (some a)) H H) b
      (by show (1 : Int) ≠ N; omega)]
    dsimp only
    rw [if_neg (by omega : ¬(1 : Int) + 1 = N)]
    rfl
  have e3 : (ringBuffer.mk N 2 F
        ((L.set H.toNat (some a)).set ((H + 1) % N).toNat (some b)) H
        ((H + 1) % N)).Enqueue c =
      (ringBuffer.mk N 3 (if (3 : Int) = N then true else F)
        (((L.set H.toNat (some a)).set ((H + 1) % N).toNat (some b)).set
          ((H + 2) % N).toNat (some c)) H ((H + 2) % N), none) := by
    rw [Enqueue_not_full _ c (by show (2 : Int) ≠ N; omega)]
    dsimp only
    rfl
  have d1 : (ringBuffer.mk N 3 (if (3 : Int) = N then true else F)
        (((L.set H.toNat (some a)).set ((H + 1) % N).toNat (some b)).set
          ((H + 2) % N).toNat (some c)) H ((H + 2) % N)).Dequeue =
      (ringBuffer.mk N 2 false
        ((((L.set H.toNat (some a)).set ((H + 1) % N).toNat (some b)).set
          ((H + 2) % N).toNat (some c)).set H.toNat none) ((H + 1) % N) ((H + 2) % N),
       (((L.set H.toNat (some a)).set ((H + 1) % N).toNat (some b)).set
          ((H + 2) % N).toNat (some c)).getD H.toNat none) := by
    rw [Dequeue_nonempty _ (by show (3 : Int) ≠ 0; omega)]
    rfl
  have d2 : (ringBuffer.mk N 2 false
        ((((L.set H.toNat (some a)).set ((H + 1) % N).toNat (some b)).set
          ((H + 2) % N).toNat (some c)).set H.toNat none) ((H + 1) % N)
        ((H + 2) % N)).Dequeue =
      (ringBuffer.mk N 1 false
        (((((L.set H.toNat (some a)).set ((H + 1) % N).toNat (some b)).set
          ((H + 2) % N).toNat (some c)).set H.toNat none).set ((H + 1) % N).toNat none)
        ((H + 2) % N) ((H + 2) % N),
       ((((L.set H.toNat (some a)).set ((H + 1) % N).toNat (some b)).set
          ((H + 2) % N).toNat (some c)).set H.toNat none).getD ((H + 1) % N).toNat
          none) := by
    rw [Dequeue_nonempty _ (by show (2 : Int) ≠ 0; omega)]
    dsimp only
    rw [hp12]
    rfl
  have d3 : (ringBuffer.mk N 1 false
        (((((L.set H.toNat (some a)).set ((H + 1) % N).toNat (some b)).set
          ((H + 2) % N).toNat (some c)).set H.toNat none).set ((H + 1) % N).toNat none)
        ((H + 2) % N) ((H + 2) % N)).Dequeue =
      (ringBuffer.mk N 0 false
        ((((((L.set H.toNat (some a)).set ((H + 1) % N).toNat (some b)).set
          ((H + 2) % N).toNat (some c)).set H.toNat none).set ((H + 1) % N).toNat
          none).set ((H + 2) % N).toNat none)
        (((H + 2) % N + 1) % N) ((H + 2) % N),
       (((((L.set H.toNat (some a)).set ((H + 1) % N).toNat (some b)).set
          ((H + 2) % N).toNat (some c)).set H.toNat none).set ((H + 1) % N).toNat
          none).getD ((H + 2) % N).toNat none) := by
    rw [Dequeue_nonempty _ (by show (1 : Int) ≠ 0; omega)]
    rfl
  have g1 : (((L.set H.toNat (some a)).set ((H + 1) % N).toNat (some b)).set
      ((H + 2) % N).toNat (some c)).getD H.toNat none = some a := by
    rw [getD_set_ne _ _ _ _ _ (Ne.symm n02), getD_set_ne _ _ _ _ _ (Ne.symm n01)]
    exact getD_set_self _ _ _ _ bn0
  have g2 : ((((L.set H.toNat (some a)).set ((H + 1) % N).toNat (some b)).set
      ((H + 2) % N).toNat (some c)).set H.toNat none).getD ((H + 1) % N).toNat none =
      some b := by
    rw [getD_set_ne _ _ _ _ _ n01, getD_set_ne _ _ _ _ _ (Ne.symm n12)]
    exact getD_set_self _ _ _ _ (by rw [List.length_set]; exact bn1)
  have g3 : (((((L.set H.toNat (some a)).set ((H + 1) % N).toNat (some b)).set
      ((H + 2) % N).toNat (some c)).set H.toNat none).set ((H + 1) % N).toNat
      none).getD ((H + 2) % N).toNat none = some c := by
    rw [getD_set_ne _ _ _ _ _ n12, getD_set_ne _ _ _ _ _ n02]
    exact getD_set_self _ _ _ _ (by rw [List.length_set, List.length_set]; exact bn2)
  simp only [e1, e2, e3, d1, d2, d3, g1, g2, g3]
  exact ⟨trivial, trivial, trivial, trivial, trivial, trivial, trivial⟩

/-- C6 (witness): the FIFO theorem applied to the fresh buffer of capacity 3
and the items 10, 20, 30. -/
theorem C6_witness :
    ((mkRingBuffer 3).Enqueue 10).2 = none ∧
    (((mkRingBuffer 3).Enqueue 10).1.Enqueue 20).2 = none ∧
    ((((mkRingBuffer 3).Enqueue 10).1.Enqueue 20).1.Enqueue 30).2 = none ∧
    ((((mkRingBuffer 3).Enqueue 10).1.Enqueue 20).1.Enqueue 30).1.Dequeue.2 = some 10 ∧
    ((((mkRingBuffer 3).Enqueue 10).1.Enqueue 20).1.Enqueue
      30).1.Dequeue.1.Dequeue.2 = some 20 ∧
    ((((mkRingBuffer 3).Enqueue 10).1.Enqueue 20).1.Enqueue
      30).1.Dequeue.1.Dequeue.1.Dequeue.2 = some 30 ∧
    ((((mkRingBuffer 3).Enqueue 10).1.Enqueue 20).1.Enqueue
      30).1.Dequeue.1.Dequeue.1.Dequeue.1.CurrentSize = 0 :=
  C6_fifo (mkRingBuffer 3) 10 20 30 (by decide) (by decide) (by decide) (by decide)
    (by decide)

end Fsq
